import Mathlib

/-!
Verification of the shario P2P file-sharing node: a shallow embedding of the
transfer, chat, session-registry and identity components, with theorems about
their behaviour.

Modelling conventions:
* Go machine integers (`int64`, `int`) are modelled as `Int`/`Nat`; none of the
  quantities involved can overflow in the scenarios considered.
* Go `float64` progress values are modelled as exact rationals; every concrete
  division appearing in a theorem below is exact in binary floating point too.
* File and network I/O is modelled as pure state: writes succeed, and the
  receiver-side file contents are carried inside the transfer record.
* Bytes are modelled as `Nat` (the values are never inspected arithmetically).
-/

namespace Shario

/-! ## Sender-side chunking

`transfer.Manager.sendFile` reads the file into a buffer of
`chunkSize = 4 * 1024` bytes and emits one `data` message per read, with
`chunk_index` counting up from 0 and `is_last` set on the chunk that reaches
the end of the file (`totalSent + bytesRead == fileSize`).  An `os.File` read
returns `min (remaining, chunkSize)` bytes, so the loop is modelled as
repeatedly splitting off `chunkSize`-byte prefixes.  The recursion is driven
by a fuel argument equal to the content length so that it is structural. -/

/-- Chunk size used by `sendFile` (`const chunkSize = 4 * 1024`). -/
def chunkSize : Nat := 4 * 1024

/-- One `data` protocol message produced by `sendFileChunk`. -/
structure Chunk where
  index : Nat
  payload : List Nat
  isLast : Bool
deriving DecidableEq, Repr

/-- The chunk-emission loop of `sendFile`: splits the remaining content into
`chunkSize`-byte pieces, numbering them from `idx`.  The first argument is
fuel; `sendFileChunks` supplies `content.length`, which is enough because at
least one byte is consumed per emitted chunk. -/
def sendChunksGo : Nat → List Nat → Nat → List Chunk
  | _, [], _ => []
  | 0, _ :: _, _ => []
  | fuel + 1, b :: rest, idx =>
      { index := idx
        payload := (b :: rest).take chunkSize
        isLast := ((b :: rest).drop chunkSize).isEmpty } ::
        sendChunksGo fuel ((b :: rest).drop chunkSize) (idx + 1)

/-- The sequence of `data` messages `sendFile` emits for a file with the given
contents. -/
def sendFileChunks (content : List Nat) : List Chunk :=
  sendChunksGo content.length content 0

theorem sendChunksGo_nil (fuel idx : Nat) : sendChunksGo fuel [] idx = [] := by
  cases fuel <;> rfl

theorem sendChunksGo_cons (fuel idx : Nat) (b : Nat) (rest : List Nat) :
    sendChunksGo (fuel + 1) (b :: rest) idx =
      { index := idx
        payload := (b :: rest).take chunkSize
        isLast := ((b :: rest).drop chunkSize).isEmpty } ::
        sendChunksGo fuel ((b :: rest).drop chunkSize) (idx + 1) := rfl

theorem sendChunksGo_ne_nil {fuel : Nat} {c : List Nat} (idx : Nat)
    (hc : c ≠ []) (hfuel : 1 ≤ fuel) : sendChunksGo fuel c idx ≠ [] := by
  cases fuel with
  | zero => omega
  | succ f =>
      cases c with
      | nil => exact absurd rfl hc
      | cons b rest => rw [sendChunksGo_cons]; simp

theorem sendChunksGo_head {fuel : Nat} {c : List Nat} (idx : Nat)
    (hc : c ≠ []) (hfuel : 1 ≤ fuel) :
    (sendChunksGo fuel c idx).head? =
      some { index := idx, payload := c.take chunkSize,
             isLast := (c.drop chunkSize).isEmpty } := by
  cases fuel with
  | zero => omega
  | succ f =>
      cases c with
      | nil => exact absurd rfl hc
      | cons b rest => rw [sendChunksGo_cons]; rfl

/-- The emitted chunk indices count up by one from the starting index. -/
theorem sendChunksGo_indices {fuel : Nat} (c : List Nat) (idx : Nat)
    (h : c.length ≤ fuel) :
    (sendChunksGo fuel c idx).map Chunk.index =
      List.range' idx (sendChunksGo fuel c idx).length := by
  induction fuel generalizing c idx with
  | zero =>
      have : c = [] := List.length_eq_zero.mp (Nat.le_zero.mp h)
      subst this; simp [sendChunksGo_nil]
  | succ f ih =>
      cases c with
      | nil => simp [sendChunksGo_nil]
      | cons b rest =>
          rw [sendChunksGo_cons]
          have hd : ((b :: rest).drop chunkSize).length ≤ f := by
            rw [List.length_drop]
            simp only [List.length_cons] at h ⊢
            have : 1 ≤ chunkSize := by norm_num [chunkSize]
            omega
          simp only [List.map_cons, List.length_cons]
          rw [ih _ (idx + 1) hd, List.range'_succ]

/-- Concatenating the emitted payloads restores the file contents. -/
theorem sendChunksGo_join {fuel : Nat} (c : List Nat) (idx : Nat)
    (h : c.length ≤ fuel) :
    ((sendChunksGo fuel c idx).map Chunk.payload).flatten = c := by
  induction fuel generalizing c idx with
  | zero =>
      have : c = [] := List.length_eq_zero.mp (Nat.le_zero.mp h)
      subst this; simp [sendChunksGo_nil]
  | succ f ih =>
      cases c with
      | nil => simp [sendChunksGo_nil]
      | cons b rest =>
          rw [sendChunksGo_cons]
          have hd : ((b :: rest).drop chunkSize).length ≤ f := by
            rw [List.length_drop]
            simp only [List.length_cons] at h ⊢
            have : 1 ≤ chunkSize := by norm_num [chunkSize]
            omega
          simp only [List.map_cons, List.flatten_cons]
          rw [ih _ (idx + 1) hd]
          exact List.take_append_drop chunkSize (b :: rest)

/-- Every chunk except the final one carries a payload of exactly `chunkSize`
bytes and has `is_last = false`. -/
theorem sendChunksGo_mid {fuel : Nat} (c : List Nat) (idx : Nat)
    (h : c.length ≤ fuel) :
    ∀ ch ∈ (sendChunksGo fuel c idx).dropLast,
      ch.payload.length = chunkSize ∧ ch.isLast = false := by
  induction fuel generalizing c idx with
  | zero =>
      have : c = [] := List.length_eq_zero.mp (Nat.le_zero.mp h)
      subst this; simp [sendChunksGo_nil]
  | succ f ih =>
      cases c with
      | nil => simp [sendChunksGo_nil]
      | cons b rest =>
          rw [sendChunksGo_cons]
          have hd : ((b :: rest).drop chunkSize).length ≤ f := by
            rw [List.length_drop]
            simp only [List.length_cons] at h ⊢
            have hcs : 1 ≤ chunkSize := by norm_num [chunkSize]
            omega
          by_cases hr : sendChunksGo f ((b :: rest).drop chunkSize) (idx + 1) = []
          · rw [hr]; simp
          · have hdropne : (b :: rest).drop chunkSize ≠ [] := by
              intro hnil
              rw [hnil, sendChunksGo_nil] at hr
              exact hr rfl
            have hlong : chunkSize < (b :: rest).length := by
              by_contra hle
              push_neg at hle
              exact hdropne (List.drop_eq_nil_of_le hle)
            rw [List.dropLast_cons_of_ne_nil hr]
            intro ch hch
            rcases List.mem_cons.mp hch with hhead | htail
            · subst hhead
              have hlong' : chunkSize < rest.length + 1 := by simpa using hlong
              constructor
              · rw [List.length_take]
                simp only [List.length_cons]
                omega
              · simp only [List.isEmpty_eq_false]
                exact hdropne
            · exact ih _ (idx + 1) hd ch htail

/-- The final emitted chunk carries `is_last = true`. -/
theorem sendChunksGo_last {fuel : Nat} (c : List Nat) (idx : Nat)
    (h : c.length ≤ fuel) :
    ∀ ch, (sendChunksGo fuel c idx).getLast? = some ch → ch.isLast = true := by
  induction fuel generalizing c idx with
  | zero =>
      have : c = [] := List.length_eq_zero.mp (Nat.le_zero.mp h)
      subst this; simp [sendChunksGo_nil]
  | succ f ih =>
      cases c with
      | nil => simp [sendChunksGo_nil]
      | cons b rest =>
          rw [sendChunksGo_cons]
          have hd : ((b :: rest).drop chunkSize).length ≤ f := by
            rw [List.length_drop]
            simp only [List.length_cons] at h ⊢
            have hcs : 1 ≤ chunkSize := by norm_num [chunkSize]
            omega
          intro ch hch
          rcases hrest : sendChunksGo f ((b :: rest).drop chunkSize) (idx + 1)
            with _ | ⟨x, xs⟩
          · rw [hrest] at hch
            simp only [List.getLast?_singleton, Option.some.injEq] at hch
            have hdropnil : (b :: rest).drop chunkSize = [] := by
              by_contra hne
              have hf : 1 ≤ f := by
                rcases Nat.eq_zero_or_pos f with h0 | h1
                · subst h0
                  have : ((b :: rest).drop chunkSize).length = 0 := Nat.le_zero.mp hd
                  exact absurd (List.length_eq_zero.mp this) hne
                · exact h1
              exact sendChunksGo_ne_nil (idx + 1) hne hf hrest
            rw [← hch]
            simp [hdropnil]
          · rw [hrest] at hch
            rw [List.getLast?_cons_cons] at hch
            have := ih _ (idx + 1) hd ch
            rw [hrest] at this
            exact this hch

/-! ## Inbound substream handling

`network.Manager.handleChatStream` and `handleTransferStream` allocate a
4096-byte buffer, perform a single `stream.Read(buf)` and pass `buf[:n]` to
`notifyMessage`.  A single read returns at most `min (msg.length, 4096)`
bytes; the model below takes exactly that many, the most a single read can
deliver. -/

/-- Size of the read buffer in `handleChatStream` / `handleTransferStream`. -/
def streamBufSize : Nat := 4096

/-- The bytes a stream handler passes to `OnMessage` for an inbound message:
the single read fills at most the 4096-byte buffer. -/
def handleStreamRead (msg : List Nat) : List Nat :=
  msg.take streamBufSize

/-- `base64.StdEncoding.EncodedLen`: the length of the base64 encoding of `n`
bytes, including padding. -/
def base64EncodedLen (n : Nat) : Nat :=
  (n + 2) / 3 * 4

theorem handleStreamRead_length_le (msg : List Nat) :
    (handleStreamRead msg).length ≤ streamBufSize := by
  simp [handleStreamRead]

theorem handleStreamRead_truncates {msg : List Nat}
    (h : streamBufSize < msg.length) : handleStreamRead msg ≠ msg := by
  intro heq
  have := congrArg List.length heq
  simp [handleStreamRead] at this
  omega

/-! ## The transfer state machine (package `transfer`)

`Transfer` mirrors the Go struct; the `file *os.File` handle is modelled by
`fileOpen` together with `written`, the bytes appended to it so far. -/

inductive TransferStatus
  | pending
  | active
  | completed
  | failed
  | cancelled
  | paused
deriving DecidableEq, Repr

inductive TransferDirection
  | send
  | receive
deriving DecidableEq, Repr

structure Transfer where
  id : String
  filename : String
  size : Int
  transferred : Int
  progress : ℚ
  status : TransferStatus
  direction : TransferDirection
  peer : String
  checksum : String
  error : Option String
  fileOpen : Bool
  written : List Nat
deriving DecidableEq, Repr

/-- `transfer.Manager.handleTransferData`, per-transfer part: the chunk has
already been base64-decoded; the transfer was found in the map.  If the file
handle is nil the message is dropped; otherwise the chunk is appended,
`Transferred` and `Progress` are updated, and on `is_last = true` the status
becomes completed, progress is forced to 100 and the file is closed.  No
digest is computed or compared anywhere on this path. -/
def handleTransferData (t : Transfer) (chunk : List Nat) (isLast : Bool) :
    Transfer :=
  if t.fileOpen = false then t
  else
    let t1 : Transfer :=
      { t with
        written := t.written ++ chunk
        transferred := t.transferred + (chunk.length : Int)
        progress :=
          ((t.transferred + (chunk.length : Int) : Int) : ℚ) * 100 /
            ((t.size : Int) : ℚ) }
    if isLast then
      { t1 with status := .completed, progress := 100, fileOpen := false }
    else t1

/-- `transfer.Manager.handleTransferComplete`, per-transfer part: sets status
completed and progress 100 unconditionally and closes the file. -/
def handleTransferCompleteOp (t : Transfer) : Transfer :=
  { t with status := .completed, progress := 100, fileOpen := false }

/-- `transfer.Manager.handleTransferCancel`, per-transfer part: sets status
cancelled unconditionally and closes the file. -/
def handleTransferCancelOp (t : Transfer) : Transfer :=
  { t with status := .cancelled, fileOpen := false }

/-- `transfer.Manager.CancelTransfer`, per-transfer part (the local cancel
API): same unconditional state change; sending the `cancel` message is
best-effort and does not affect local state. -/
def cancelTransferOp (t : Transfer) : Transfer :=
  { t with status := .cancelled, fileOpen := false }

/-- `transfer.Manager.OnPeerDisconnected` cancels a transfer only when it is
with the vanished peer *and* its status is active or pending. -/
def peerDisconnectedStep (peerId : String) (t : Transfer) : Transfer :=
  if t.peer = peerId ∧ (t.status = .active ∨ t.status = .pending) then
    cancelTransferOp t
  else t

/-- `transfer.Manager.OnPeerDisconnected` over the whole transfer table. -/
def onPeerDisconnectedTransfers (peerId : String) (ts : List Transfer) :
    List Transfer :=
  ts.map (peerDisconnectedStep peerId)

/-- A transfer status the specification calls terminal. -/
def terminalStatus (s : TransferStatus) : Prop :=
  s = .completed ∨ s = .failed ∨ s = .cancelled

instance (s : TransferStatus) : Decidable (terminalStatus s) := by
  unfold terminalStatus; infer_instance

/-! ## JSON payload values and Go type assertions

Message `data` payloads are `map[string]interface{}` in the source; the
handlers read scalar fields out of them with unchecked type assertions
(`data["k"].(string)` etc.), which in Go panic when the key is absent or the
value has another dynamic type.  Only the scalar JSON values these handlers
inspect are modelled. -/

inductive JValue
  | jnull
  | jbool (b : Bool)
  | jnum (q : ℚ)
  | jstr (s : String)
deriving DecidableEq, Repr

/-- A Go runtime panic escaping a handler (failed interface type assertion). -/
inductive GoPanic
  | typeAssertion
deriving DecidableEq, Repr

/-- `v.(string)` on the result of a map lookup. -/
def asGoString : Option JValue → Except GoPanic String
  | some (.jstr s) => .ok s
  | _ => .error .typeAssertion

/-- `v.(float64)` on the result of a map lookup. -/
def asGoFloat : Option JValue → Except GoPanic ℚ
  | some (.jnum q) => .ok q
  | _ => .error .typeAssertion

/-- `v.(bool)` on the result of a map lookup. -/
def asGoBool : Option JValue → Except GoPanic Bool
  | some (.jbool b) => .ok b
  | _ => .error .typeAssertion

/-- Go map indexing (`m[k]`), on an association-list model of the map. -/
def lookupA {α : Type} : List (String × α) → String → Option α
  | [], _ => none
  | (k', v') :: t, k => if k' = k then some v' else lookupA t k

/-- Go map update (`m[k] = v`), on an association-list model of the map. -/
def setAssoc {α : Type} : List (String × α) → String → α → List (String × α)
  | [], k, v => [(k, v)]
  | (k', v') :: t, k, v =>
      if k' = k then (k, v) :: t else (k', v') :: setAssoc t k v

/-- Go map deletion (`delete(m, k)`). -/
def eraseAssoc {α : Type} (l : List (String × α)) (k : String) :
    List (String × α) :=
  l.filter (fun kv => kv.1 != k)

/-- `transfer.Manager.handleTransferData`, message level: four unchecked type
assertions, then a base64 decode whose failure is logged and dropped, then a
map lookup whose miss is logged and dropped, then the per-transfer update.
The base64 decoder is an external library function, passed as a parameter. -/
def handleTransferDataMsg (b64decode : String → Option (List Nat))
    (ts : List (String × Transfer)) (data : List (String × JValue)) :
    Except GoPanic (List (String × Transfer)) := do
  let tid ← asGoString (lookupA data "transfer_id")
  let _chunkIndex ← asGoFloat (lookupA data "chunk_index")
  let enc ← asGoString (lookupA data "data")
  let il ← asGoBool (lookupA data "is_last")
  match b64decode enc with
  | none => pure ts
  | some chunk =>
      match lookupA ts tid with
      | none => pure ts
      | some t => pure (setAssoc ts tid (handleTransferData t chunk il))

/-- A chat message as recorded in a room by `handleTextMessage`. -/
structure ChatMsgRec where
  id : String
  content : String
  sender : String
  senderId : String
  timestamp : ℚ
  roomId : String
  type : String
deriving DecidableEq, Repr

/-- `chat.Manager.handleTextMessage`: `peer.Decode` failure is logged and
dropped, but every field read is an unchecked type assertion.  The sender
nickname is resolved against the registry (`lookupNick`), falling back to the
nickname stamped in the message when the registry has none.  The room /
message bookkeeping is summarised as appending the recorded message. -/
def handleTextMessageMsg (decodePeer : String → Option String)
    (lookupNick : String → String)
    (st : List ChatMsgRec) (data : List (String × JValue)) :
    Except GoPanic (List ChatMsgRec) := do
  let sidStr ← asGoString (lookupA data "sender_id")
  match decodePeer sidStr with
  | none => pure st
  | some senderId =>
      let sent ← asGoString (lookupA data "sender")
      let nick := lookupNick senderId
      let senderNick := if nick = "" then sent else nick
      let mid ← asGoString (lookupA data "id")
      let content ← asGoString (lookupA data "content")
      let ts ← asGoFloat (lookupA data "timestamp")
      let rid ← asGoString (lookupA data "room_id")
      let ty ← asGoString (lookupA data "type")
      pure (st ++ [⟨mid, content, senderNick, senderId, ts, rid, ty⟩])

/-- The framed `{ "type": ..., "data": ... }` envelope after `json.Unmarshal`;
`none` models an unmarshal error. -/
structure Envelope where
  type : String
  data : List (String × JValue)
deriving DecidableEq, Repr

/-- `transfer.Manager.OnMessage` for the `data` message kind: an envelope that
fails to unmarshal is logged and dropped before any field is touched.  (The
other message kinds dispatch to their own handlers and are not needed by the
claims.) -/
def onTransferDataEnvelope (b64decode : String → Option (List Nat))
    (ts : List (String × Transfer)) (parsed : Option Envelope) :
    Except GoPanic (List (String × Transfer)) :=
  match parsed with
  | none => .ok ts
  | some env =>
      if env.type = "data" then handleTransferDataMsg b64decode ts env.data
      else .ok ts

/-! ## Identity store (package `identity`)

The crypto library primitives (`crypto.ConfigDecodeKey`,
`crypto.UnmarshalPrivateKey`, `PrivKey.GetPublic`, `peer.IDFromPublicKey`)
are external; they appear as parameters.  `saveIdentity` always succeeds in
the model; the file contents it writes are the `persisted` field. -/

structure Identity where
  nickname : String
  publicKey : String
  privateKey : String
  peerID : String
deriving DecidableEq, Repr

structure IdManager (PK PB : Type) where
  identity : Identity
  privateKey : PK
  publicKey : PB
  peerID : String
  persisted : Identity
deriving DecidableEq

/-- `identity.Manager.SetNickname`: stores the given string as-is and rewrites
the identity file.  Returns the updated manager and the error (`none`: the
call succeeded). -/
def setNickname {PK PB : Type} (m : IdManager PK PB) (nickname : String) :
    IdManager PK PB × Option String :=
  let ident := { m.identity with nickname := nickname }
  ({ m with identity := ident, persisted := ident }, none)

/-- `identity.Manager.ExportIdentity`: `json.MarshalIndent(m.identity)`.  The
JSON round trip is the identity on the four string fields, so the serialized
form is modelled by the `Identity` value itself. -/
def exportIdentity {PK PB : Type} (m : IdManager PK PB) : Option Identity :=
  some m.identity

/-- `identity.Manager.ImportIdentity`.  `parsed` is the result of
`json.Unmarshal` on the input bytes (`none`: unmarshal error).  The derived
peer ID is compared with the stored one; only on full success is the manager
state replaced and the file rewritten. -/
def importIdentity {PK PB : Type}
    (configDecodeKey : String → Option (List Nat))
    (unmarshalPrivateKey : List Nat → Option PK)
    (getPublic : PK → PB)
    (idFromPublicKey : PB → Option String)
    (m : IdManager PK PB) (parsed : Option Identity) :
    IdManager PK PB × Option String :=
  match parsed with
  | none => (m, some "failed to unmarshal identity")
  | some ident =>
      match configDecodeKey ident.privateKey with
      | none => (m, some "failed to decode private key")
      | some bs =>
          match unmarshalPrivateKey bs with
          | none => (m, some "failed to unmarshal private key")
          | some pk =>
              let pub := getPublic pk
              match idFromPublicKey pub with
              | none => (m, some "failed to generate peer ID")
              | some pid =>
                  if pid ≠ ident.peerID then
                    (m, some "peer ID mismatch in imported identity")
                  else
                    ({ identity := ident, privateKey := pk, publicKey := pub,
                       peerID := pid, persisted := ident }, none)

/-- A manager state as produced by `createIdentity` / `loadIdentity`: the
serialized fields match the in-memory key material. -/
def ConsistentManager {PK PB : Type}
    (configDecodeKey : String → Option (List Nat))
    (unmarshalPrivateKey : List Nat → Option PK)
    (getPublic : PK → PB)
    (idFromPublicKey : PB → Option String)
    (m : IdManager PK PB) : Prop :=
  (∃ bs, configDecodeKey m.identity.privateKey = some bs ∧
      unmarshalPrivateKey bs = some m.privateKey) ∧
  getPublic m.privateKey = m.publicKey ∧
  idFromPublicKey m.publicKey = some m.identity.peerID ∧
  m.peerID = m.identity.peerID ∧
  m.persisted = m.identity

/-! ## Direct chat room identifiers (`chat.Manager.generateDirectRoomID`) -/

/-- `generateDirectRoomID`: concatenates the two peer IDs in lexicographic
order under the `direct_` prefix. -/
def generateDirectRoomID (peer1 peer2 : String) : String :=
  if peer1 < peer2 then "direct_" ++ peer1 ++ "_" ++ peer2
  else "direct_" ++ peer2 ++ "_" ++ peer1

/-! ## Session registry (`networkNotifiee.Connected` / `.Disconnected`)

The libp2p transport delivers connection-opened / connection-closed
notifications; `host.Network().Connectedness(peerID)` reports whether any
live connection to that peer remains.  The model carries the transport's
per-peer live-connection count (`conns`) alongside the registry's peer table
and the stream of emitted subscriber events. -/

structure RegPeer where
  id : String
  nickname : String
  addresses : List String
deriving DecidableEq, Repr

inductive RegEvent
  | peerConnected (id : String) (nickname : String)
  | peerDisconnected (id : String)
deriving DecidableEq, Repr

structure RegState where
  conns : List (String × Nat)
  peers : List (String × RegPeer)
  events : List RegEvent
deriving DecidableEq, Repr

inductive NetEvent
  | opened (id : String) (addr : String)
  | closed (id : String)
deriving DecidableEq, Repr

/-- Number of live transport connections to a peer. -/
def getCount (conns : List (String × Nat)) (p : String) : Nat :=
  (lookupA conns p).getD 0

def bumpCount (conns : List (String × Nat)) (p : String) :
    List (String × Nat) :=
  setAssoc conns p (getCount conns p + 1)

def decCount (conns : List (String × Nat)) (p : String) :
    List (String × Nat) :=
  setAssoc conns p (getCount conns p - 1)

/-- `networkNotifiee.Connected`: the transport has recorded one more
connection; if the peer is known the new remote address is appended and no
event is emitted, otherwise a fresh `Peer` with nickname
`peerID.String()[:8]` is inserted and `OnPeerConnected` is emitted. -/
def notifieeConnected (s : RegState) (p a : String) : RegState :=
  let conns' := bumpCount s.conns p
  match lookupA s.peers p with
  | some existing =>
      { s with
          conns := conns'
          peers := setAssoc s.peers p
            { existing with addresses := existing.addresses ++ [a] } }
  | none =>
      { conns := conns'
        peers := setAssoc s.peers p
          { id := p, nickname := p.take 8, addresses := [a] }
        events := s.events ++ [.peerConnected p (p.take 8)] }

/-- `networkNotifiee.Disconnected`: the closed connection is gone from the
transport; if `Connectedness` still reports a live connection the peer is
kept and no event is emitted, otherwise the peer is removed and
`OnPeerDisconnected` is emitted. -/
def notifieeDisconnected (s : RegState) (p : String) : RegState :=
  let conns' := decCount s.conns p
  if 0 < getCount conns' p then { s with conns := conns' }
  else
    { conns := conns'
      peers := eraseAssoc s.peers p
      events := s.events ++ [.peerDisconnected p] }

def regStep (s : RegState) : NetEvent → RegState
  | .opened p a => notifieeConnected s p a
  | .closed p => notifieeDisconnected s p

def regRun (s : RegState) (tr : List NetEvent) : RegState :=
  tr.foldl regStep s

def regInit : RegState := ⟨[], [], []⟩

/-- A trace is valid when every close matches a live connection (the
transport never reports closing a connection it does not hold). -/
def validFrom : List (String × Nat) → List NetEvent → Bool
  | _, [] => true
  | conns, .opened p _ :: tr => validFrom (bumpCount conns p) tr
  | conns, .closed p :: tr =>
      decide (0 < getCount conns p) && validFrom (decCount conns p) tr

/-- Number of logical sessions of peer `p` started along the trace: opens
that take its connection count from 0 to 1. -/
def sessionsStarted : List (String × Nat) → List NetEvent → String → Nat
  | _, [], _ => 0
  | conns, .opened q _ :: tr, p =>
      (if q = p ∧ getCount conns q = 0 then 1 else 0) +
        sessionsStarted (bumpCount conns q) tr p
  | conns, .closed q :: tr, p => sessionsStarted (decCount conns q) tr p

/-- Number of logical sessions of peer `p` ended along the trace: closes that
take its connection count from 1 to 0. -/
def sessionsEnded : List (String × Nat) → List NetEvent → String → Nat
  | _, [], _ => 0
  | conns, .opened q _ :: tr, p => sessionsEnded (bumpCount conns q) tr p
  | conns, .closed q :: tr, p =>
      (if q = p ∧ getCount conns q = 1 then 1 else 0) +
        sessionsEnded (decCount conns q) tr p

def isConnEventFor (p : String) : RegEvent → Bool
  | .peerConnected q _ => q == p
  | _ => false

def isDiscEventFor (p : String) : RegEvent → Bool
  | .peerDisconnected q => q == p
  | _ => false

def countConnectedEvents (evs : List RegEvent) (p : String) : Nat :=
  evs.countP (isConnEventFor p)

def countDisconnectedEvents (evs : List RegEvent) (p : String) : Nat :=
  evs.countP (isDiscEventFor p)

/-! ### Association-list lemmas -/

theorem lookupA_setAssoc_self {α : Type} (l : List (String × α)) (k : String)
    (v : α) : lookupA (setAssoc l k v) k = some v := by
  induction l with
  | nil => simp [setAssoc, lookupA]
  | cons hd t ih =>
      obtain ⟨k1, v1⟩ := hd
      by_cases hk : k1 = k
      · simp [setAssoc, hk, lookupA]
      · simp [setAssoc, hk, lookupA, ih]

theorem lookupA_setAssoc_ne {α : Type} (l : List (String × α)) (k k' : String)
    (v : α) (h : k' ≠ k) : lookupA (setAssoc l k v) k' = lookupA l k' := by
  induction l with
  | nil => simp [setAssoc, lookupA, Ne.symm h]
  | cons hd t ih =>
      obtain ⟨k1, v1⟩ := hd
      by_cases hk : k1 = k
      · subst hk
        simp [setAssoc, lookupA, Ne.symm h]
      · simp only [setAssoc, if_neg hk, lookupA]
        by_cases hk1 : k1 = k'
        · simp [hk1]
        · simp [hk1, ih]

theorem lookupA_eraseAssoc_self {α : Type} (l : List (String × α))
    (k : String) : lookupA (eraseAssoc l k) k = none := by
  induction l with
  | nil => simp [eraseAssoc, lookupA]
  | cons hd t ih =>
      obtain ⟨k1, v1⟩ := hd
      by_cases hk : k1 = k
      · simpa [eraseAssoc, hk] using ih
      · have hb : (k1 != k) = true := by simpa using hk
        simp only [eraseAssoc, List.filter_cons, hb, if_pos]
        simpa [lookupA, hk] using ih

theorem lookupA_eraseAssoc_ne {α : Type} (l : List (String × α))
    (k k' : String) (h : k' ≠ k) :
    lookupA (eraseAssoc l k) k' = lookupA l k' := by
  induction l with
  | nil => simp [eraseAssoc]
  | cons hd t ih =>
      obtain ⟨k1, v1⟩ := hd
      by_cases hk : k1 = k
      · subst hk
        have hb : (k1 != k1) = false := by simp
        simp only [eraseAssoc, List.filter_cons, hb, Bool.false_eq_true,
          if_false]
        simp only [eraseAssoc] at ih
        rw [ih]
        simp [lookupA, Ne.symm h]
      · have hb : (k1 != k) = true := by simpa using hk
        simp only [eraseAssoc, List.filter_cons, hb, if_pos]
        by_cases hk1 : k1 = k'
        · simp [lookupA, hk1]
        · simp only [eraseAssoc] at ih
          simp [lookupA, hk1, ih]

theorem getCount_bump_self (c : List (String × Nat)) (p : String) :
    getCount (bumpCount c p) p = getCount c p + 1 := by
  simp [getCount, bumpCount, lookupA_setAssoc_self]

theorem getCount_bump_ne (c : List (String × Nat)) (p q : String)
    (h : q ≠ p) : getCount (bumpCount c p) q = getCount c q := by
  simp [getCount, bumpCount, lookupA_setAssoc_ne _ _ _ _ h]

theorem getCount_dec_self (c : List (String × Nat)) (p : String) :
    getCount (decCount c p) p = getCount c p - 1 := by
  simp [getCount, decCount, lookupA_setAssoc_self]

theorem getCount_dec_ne (c : List (String × Nat)) (p q : String)
    (h : q ≠ p) : getCount (decCount c p) q = getCount c q := by
  simp [getCount, decCount, lookupA_setAssoc_ne _ _ _ _ h]

/-! ### Registry invariant and event counting -/

/-- The registry's peer table holds exactly the identifiers with at least one
live transport connection. -/
def RegInv (s : RegState) : Prop :=
  ∀ q, (lookupA s.peers q).isSome ↔ 0 < getCount s.conns q

theorem regInv_connected {s : RegState} (p a : String) (h : RegInv s) :
    RegInv (notifieeConnected s p a) := by
  intro q
  unfold notifieeConnected
  rcases hlk : lookupA s.peers p with _ | pe <;> simp only
  · by_cases hq : q = p
    · subst hq
      simp [lookupA_setAssoc_self, getCount_bump_self]
    · rw [lookupA_setAssoc_ne _ _ _ _ hq, getCount_bump_ne _ _ _ hq]
      exact h q
  · by_cases hq : q = p
    · subst hq
      simp [lookupA_setAssoc_self, getCount_bump_self]
    · rw [lookupA_setAssoc_ne _ _ _ _ hq, getCount_bump_ne _ _ _ hq]
      exact h q

theorem regInv_disconnected {s : RegState} (p : String) (h : RegInv s)
    (hc : 0 < getCount s.conns p) : RegInv (notifieeDisconnected s p) := by
  intro q
  unfold notifieeDisconnected
  by_cases hrem : 0 < getCount (decCount s.conns p) p
  · rw [if_pos hrem]
    simp only
    by_cases hq : q = p
    · subst hq
      rw [getCount_dec_self] at hrem ⊢
      constructor
      · intro _; omega
      · intro _; exact (h q).mpr hc
    · rw [getCount_dec_ne _ _ _ hq]
      exact h q
  · rw [if_neg hrem]
    simp only
    by_cases hq : q = p
    · subst hq
      rw [lookupA_eraseAssoc_self]
      simp only [Option.isSome_none, Bool.false_eq_true, false_iff]
      omega
    · rw [lookupA_eraseAssoc_ne _ _ _ hq, getCount_dec_ne _ _ _ hq]
      exact h q

theorem countConnectedEvents_append (evs evs' : List RegEvent) (p : String) :
    countConnectedEvents (evs ++ evs') p =
      countConnectedEvents evs p + countConnectedEvents evs' p := by
  simp [countConnectedEvents, List.countP_append]

theorem countDisconnectedEvents_append (evs evs' : List RegEvent)
    (p : String) :
    countDisconnectedEvents (evs ++ evs') p =
      countDisconnectedEvents evs p + countDisconnectedEvents evs' p := by
  simp [countDisconnectedEvents, List.countP_append]

theorem countConnected_single (q nick p : String) :
    countConnectedEvents [.peerConnected q nick] p =
      if q = p then 1 else 0 := by
  by_cases hqp : q = p <;>
    simp [countConnectedEvents, List.countP_cons, isConnEventFor, hqp]

theorem countDisconnected_single_conn (q nick p : String) :
    countDisconnectedEvents [.peerConnected q nick] p = 0 := by
  simp [countDisconnectedEvents, List.countP_cons, isDiscEventFor]

theorem countConnected_single_disc (q p : String) :
    countConnectedEvents [.peerDisconnected q] p = 0 := by
  simp [countConnectedEvents, List.countP_cons, isConnEventFor]

theorem countDisconnected_single (q p : String) :
    countDisconnectedEvents [.peerDisconnected q] p =
      if q = p then 1 else 0 := by
  by_cases hqp : q = p <;>
    simp [countDisconnectedEvents, List.countP_cons, isDiscEventFor, hqp]

/-- Along any valid trace, the registry emits one `OnPeerConnected` per
logical-session start and one `OnPeerDisconnected` per logical-session end. -/
theorem regRun_eventCounts (tr : List NetEvent) (s : RegState) (p : String)
    (hv : validFrom s.conns tr = true) (hInv : RegInv s) :
    countConnectedEvents (regRun s tr).events p =
        countConnectedEvents s.events p + sessionsStarted s.conns tr p ∧
      countDisconnectedEvents (regRun s tr).events p =
        countDisconnectedEvents s.events p + sessionsEnded s.conns tr p := by
  induction tr generalizing s with
  | nil => simp [regRun, sessionsStarted, sessionsEnded]
  | cons e tr ih =>
      have hrun : regRun s (e :: tr) = regRun (regStep s e) tr := rfl
      cases e with
      | opened q a =>
          have hv' : validFrom (bumpCount s.conns q) tr = true := hv
          have hconns : (notifieeConnected s q a).conns =
              bumpCount s.conns q := by
            unfold notifieeConnected
            rcases lookupA s.peers q with _ | pe <;> rfl
          have hInv' : RegInv (notifieeConnected s q a) :=
            regInv_connected q a hInv
          have hv'' : validFrom (notifieeConnected s q a).conns tr = true := by
            rw [hconns]; exact hv'
          obtain ⟨ihc, ihd⟩ := ih (notifieeConnected s q a) hv'' hInv'
          rw [hrun]
          simp only [regStep]
          rw [ihc, ihd, hconns]
          rcases hlk : lookupA s.peers q with _ | pe
          · -- new peer: one OnPeerConnected is emitted
            have hcnt : getCount s.conns q = 0 := by
              by_contra hne
              have hpos : 0 < getCount s.conns q := Nat.pos_of_ne_zero hne
              have := (hInv q).mpr hpos
              rw [hlk] at this
              simp at this
            have hev : (notifieeConnected s q a).events =
                s.events ++ [.peerConnected q (q.take 8)] := by
              unfold notifieeConnected
              rw [hlk]
            rw [hev, countConnectedEvents_append, countDisconnectedEvents_append,
              countConnected_single, countDisconnected_single_conn]
            constructor
            · simp only [sessionsStarted, hcnt]
              by_cases hqp : q = p <;> simp [hqp] <;> try omega
            · simp only [sessionsEnded]
              omega
          · -- existing peer: no event
            have hcnt : 0 < getCount s.conns q := by
              have := (hInv q).mp
              rw [hlk] at this
              simpa using this
            have hev : (notifieeConnected s q a).events = s.events := by
              unfold notifieeConnected
              rw [hlk]
            rw [hev]
            constructor
            · simp only [sessionsStarted]
              have hz : (if q = p ∧ getCount s.conns q = 0 then 1 else 0) = 0 := by
                rw [if_neg]
                rintro ⟨-, h0⟩
                omega
              omega
            · simp only [sessionsEnded]
      | closed q =>
          have hv0 : (decide (0 < getCount s.conns q) &&
              validFrom (decCount s.conns q) tr) = true := hv
          rw [Bool.and_eq_true] at hv0
          obtain ⟨hcq0, hv'⟩ := hv0
          have hcq : 0 < getCount s.conns q := of_decide_eq_true hcq0
          have hconns : (notifieeDisconnected s q).conns =
              decCount s.conns q := by
            unfold notifieeDisconnected
            by_cases hrem : 0 < getCount (decCount s.conns q) q
            · rw [if_pos hrem]
            · rw [if_neg hrem]
          have hInv' : RegInv (notifieeDisconnected s q) :=
            regInv_disconnected q hInv hcq
          have hv'' : validFrom (notifieeDisconnected s q).conns tr = true := by
            rw [hconns]; exact hv'
          obtain ⟨ihc, ihd⟩ := ih (notifieeDisconnected s q) hv'' hInv'
          rw [hrun]
          simp only [regStep]
          rw [ihc, ihd, hconns]
          by_cases hrem : 0 < getCount (decCount s.conns q) q
          · -- still connected: no event
            have hev : (notifieeDisconnected s q).events = s.events := by
              unfold notifieeDisconnected
              rw [if_pos hrem]
            rw [hev]
            constructor
            · simp only [sessionsStarted]
            · simp only [sessionsEnded]
              have hne1 : getCount s.conns q ≠ 1 := by
                rw [getCount_dec_self] at hrem
                omega
              have hz : (if q = p ∧ getCount s.conns q = 1 then 1 else 0) = 0 := by
                rw [if_neg]
                rintro ⟨-, h1⟩
                exact hne1 h1
              omega
          · -- fully disconnected: OnPeerDisconnected is emitted
            have h1 : getCount s.conns q = 1 := by
              rw [getCount_dec_self] at hrem
              omega
            have hev : (notifieeDisconnected s q).events =
                s.events ++ [.peerDisconnected q] := by
              unfold notifieeDisconnected
              rw [if_neg hrem]
            rw [hev, countConnectedEvents_append, countDisconnectedEvents_append,
              countConnected_single_disc, countDisconnected_single]
            constructor
            · simp only [sessionsStarted]
              omega
            · simp only [sessionsEnded, h1]
              by_cases hqp : q = p <;> simp [hqp] <;> try omega

/-! ### Remaining helper lemmas and sample values -/

/-- The bytes the sender has pushed after any number of chunks never exceed
the file size: partial sums of the payload lengths are bounded by the
content length. -/
theorem sendFileChunks_prefix_le (content : List Nat) (k : Nat) :
    (((sendFileChunks content).take k).map
        (fun ch => ch.payload.length)).sum ≤ content.length := by
  have hjoin : ((sendFileChunks content).map Chunk.payload).flatten = content :=
    sendChunksGo_join content 0 le_rfl
  have htotal : ((sendFileChunks content).map
      (fun ch => ch.payload.length)).sum = content.length := by
    conv_rhs => rw [← hjoin]
    rw [List.length_flatten, List.map_map]
    rfl
  set l := (sendFileChunks content).map (fun ch => ch.payload.length) with hl
  have hmt : ((sendFileChunks content).take k).map
      (fun ch => ch.payload.length) = l.take k := by
    rw [hl, List.map_take]
  rw [hmt]
  have hsplit : (l.take k).sum + (l.drop k).sum = l.sum := by
    rw [← List.sum_append, List.take_append_drop]
  omega

theorem asGoString_eq_error {v : Option JValue}
    (h : ∀ s, v ≠ some (.jstr s)) :
    asGoString v = .error .typeAssertion := by
  match v with
  | none => rfl
  | some .jnull => rfl
  | some (.jbool b) => rfl
  | some (.jnum q) => rfl
  | some (.jstr s) => exact absurd rfl (h s)

/-- A receive-direction transfer as created by `handleTransferOffer` and
activated by `AcceptTransfer`: declared size 1 byte, nothing received yet,
file open, checksum copied from the offer. -/
def sampleReceive : Transfer :=
  { id := "recv_1", filename := "f.bin", size := 1, transferred := 0,
    progress := 0, status := .active, direction := .receive,
    peer := "peerA", checksum := "unmatched-checksum", error := none,
    fileOpen := true, written := [] }

/-- A transfer that has already reached the terminal status `completed`. -/
def sampleCompleted : Transfer :=
  { id := "send_1", filename := "g.bin", size := 5, transferred := 5,
    progress := 100, status := .completed, direction := .send,
    peer := "peerA", checksum := "cafebabe", error := none,
    fileOpen := false, written := [] }

def sampleIdentity : Identity :=
  { nickname := "Anonymous", publicKey := "pub", privateKey := "key",
    peerID := "peer3" }

/-- A consistent identity manager, under the toy crypto instantiation used by
the witnesses (`configDecodeKey s = [s.length]`, `unmarshal bs = bs.headD 0`,
`getPublic = id`, `idFromPublicKey n = "peer" ++ toString n`). -/
def sampleManager : IdManager Nat Nat :=
  { identity := sampleIdentity, privateKey := 3, publicKey := 3,
    peerID := "peer3", persisted := sampleIdentity }

/-! ## Claim theorems -/

/-- Claim C1 as stated is false: on `is_last = true` the receiver never
compares any digest with the offer checksum — it marks the transfer completed
unconditionally, so completion does not imply a digest match for any choice
of hash function. -/
theorem c1_counterexample :
    ¬ ∀ (sha256Hex : List Nat → String) (t : Transfer) (chunk : List Nat),
        t.fileOpen = true →
        ((handleTransferData t chunk true).status = .completed ↔
          sha256Hex (handleTransferData t chunk true).written = t.checksum) := by
  intro h
  have hiff := h (fun _ => "d41d8cd9") sampleReceive [] rfl
  have hst : (handleTransferData sampleReceive [] true).status = .completed := by
    decide
  have := hiff.mp hst
  exact absurd this (by decide)

/-- Claim C1 (amended): when the data message with `is_last = true` arrives
for a receive transfer with an open file, the receiver closes the file and
sets status completed and progress 100 unconditionally, with no digest
comparison; a `complete` message likewise completes unconditionally.  A
completed transfer's file digest therefore need not equal the offer
checksum. -/
theorem c1_amended (t : Transfer) (chunk : List Nat)
    (h : t.fileOpen = true) :
    (handleTransferData t chunk true).status = .completed ∧
    (handleTransferData t chunk true).progress = 100 ∧
    (handleTransferData t chunk true).fileOpen = false ∧
    (handleTransferData t chunk true).written = t.written ++ chunk ∧
    (handleTransferCompleteOp t).status = .completed := by
  unfold handleTransferData handleTransferCompleteOp
  simp [h]

theorem c1_witness :
    (handleTransferData sampleReceive [] true).status = .completed ∧
    (handleTransferData sampleReceive [] true).progress = 100 ∧
    (handleTransferData sampleReceive [] true).fileOpen = false ∧
    (handleTransferData sampleReceive [] true).written =
      sampleReceive.written ++ [] ∧
    (handleTransferCompleteOp sampleReceive).status = .completed :=
  c1_amended sampleReceive [] rfl

/-- Claim C2 as stated is false: a file one byte longer than `chunkSize`
produces a first (non-final, `is_last = false`) chunk whose payload is
`chunkSize = 4096` bytes, not 1024. -/
theorem c2_counterexample :
    ((sendFileChunks (List.replicate (chunkSize + 1) 0)).head?.map
        (fun ch => (ch.payload.length, ch.isLast))) =
      some (chunkSize, false) ∧ chunkSize ≠ 1024 := by
  constructor
  · have h := @sendChunksGo_head (List.replicate (chunkSize + 1) 0).length
      (List.replicate (chunkSize + 1) 0) 0 (by simp) (by simp)
    unfold sendFileChunks
    rw [h]
    simp only [Option.map_some', Option.some.injEq, Prod.mk.injEq]
    constructor
    · rw [List.length_take, List.length_replicate]
      omega
    · rw [List.drop_replicate]
      simp only [List.isEmpty_eq_false, ne_eq, List.replicate_eq_nil_iff]
      omega
  · decide

/-- Claim C2 (amended): for every non-empty file, the sender emits at least
one chunk; the chunk indices are exactly `0, 1, 2, …`; every chunk except the
last carries exactly `chunkSize = 4096` (not 1024) bytes and
`is_last = false`; the final chunk carries `is_last = true`; and the payloads
concatenate back to the file contents. -/
theorem c2_amended (content : List Nat) (h : content ≠ []) :
    sendFileChunks content ≠ [] ∧
    (sendFileChunks content).map Chunk.index =
      List.range (sendFileChunks content).length ∧
    (∀ ch ∈ (sendFileChunks content).dropLast,
      ch.payload.length = chunkSize ∧ ch.isLast = false) ∧
    (∀ ch, (sendFileChunks content).getLast? = some ch →
      ch.isLast = true) ∧
    ((sendFileChunks content).map Chunk.payload).flatten = content := by
  refine ⟨?_, ?_, ?_, ?_, ?_⟩
  · exact sendChunksGo_ne_nil 0 h (List.length_pos.mpr h)
  · rw [List.range_eq_range']
    exact sendChunksGo_indices content 0 le_rfl
  · exact sendChunksGo_mid content 0 le_rfl
  · exact sendChunksGo_last content 0 le_rfl
  · exact sendChunksGo_join content 0 le_rfl

theorem c2_witness :
    sendFileChunks [7] ≠ [] ∧
    (sendFileChunks [7]).map Chunk.index =
      List.range (sendFileChunks [7]).length ∧
    (∀ ch ∈ (sendFileChunks [7]).dropLast,
      ch.payload.length = chunkSize ∧ ch.isLast = false) ∧
    (∀ ch, (sendFileChunks [7]).getLast? = some ch → ch.isLast = true) ∧
    ((sendFileChunks [7]).map Chunk.payload).flatten = [7] :=
  c2_amended [7] (by simp)

/-- Claim C3: across any valid sequence of connection-opened /
connection-closed callbacks, (i) a connection-opened for a known identifier
only appends the remote address and emits nothing; (ii) one for an unknown
identifier inserts a peer whose nickname is the first 8 characters of the
identifier and emits `OnPeerConnected` exactly once; (iii) a
connection-closed emits `OnPeerDisconnected` and removes the peer only when
no transport connection remains; hence the registry emits exactly one
connected event per logical-session start and one disconnected event per
logical-session end. -/
theorem c3_registry (tr : List NetEvent) (p : String)
    (hv : validFrom regInit.conns tr = true) :
    (countConnectedEvents (regRun regInit tr).events p =
        sessionsStarted regInit.conns tr p ∧
      countDisconnectedEvents (regRun regInit tr).events p =
        sessionsEnded regInit.conns tr p) ∧
    (∀ s : RegState, ∀ a pe, lookupA s.peers p = some pe →
      (notifieeConnected s p a).events = s.events ∧
      lookupA (notifieeConnected s p a).peers p =
        some { pe with addresses := pe.addresses ++ [a] }) ∧
    (∀ s : RegState, ∀ a, lookupA s.peers p = none →
      (notifieeConnected s p a).events =
          s.events ++ [.peerConnected p (p.take 8)] ∧
      lookupA (notifieeConnected s p a).peers p =
        some { id := p, nickname := p.take 8, addresses := [a] }) ∧
    (∀ s : RegState, 0 < getCount (decCount s.conns p) p →
      (notifieeDisconnected s p).events = s.events ∧
      (notifieeDisconnected s p).peers = s.peers) ∧
    (∀ s : RegState, getCount (decCount s.conns p) p = 0 →
      (notifieeDisconnected s p).events =
          s.events ++ [.peerDisconnected p] ∧
      lookupA (notifieeDisconnected s p).peers p = none) := by
  refine ⟨?_, ?_, ?_, ?_, ?_⟩
  · have hInv : RegInv regInit := by
      intro q
      simp [regInit, lookupA, getCount]
    obtain ⟨hc, hd⟩ := regRun_eventCounts tr regInit p hv hInv
    constructor
    · rw [hc]
      simp [regInit, countConnectedEvents]
    · rw [hd]
      simp [regInit, countDisconnectedEvents]
  · intro s a pe hpe
    unfold notifieeConnected
    rw [hpe]
    exact ⟨rfl, lookupA_setAssoc_self _ _ _⟩
  · intro s a hnone
    unfold notifieeConnected
    rw [hnone]
    exact ⟨rfl, lookupA_setAssoc_self _ _ _⟩
  · intro s hrem
    unfold notifieeDisconnected
    rw [if_pos hrem]
    exact ⟨rfl, rfl⟩
  · intro s hzero
    unfold notifieeDisconnected
    rw [if_neg (by omega)]
    exact ⟨rfl, lookupA_eraseAssoc_self _ _⟩

theorem c3_witness :
    (countConnectedEvents
        (regRun regInit
          [.opened "peerAAAAX" "a1", .opened "peerAAAAX" "a2",
           .closed "peerAAAAX", .closed "peerAAAAX",
           .opened "peerBBBBY" "b1"]).events "peerAAAAX" =
      sessionsStarted regInit.conns
        [.opened "peerAAAAX" "a1", .opened "peerAAAAX" "a2",
         .closed "peerAAAAX", .closed "peerAAAAX",
         .opened "peerBBBBY" "b1"] "peerAAAAX" ∧
      countDisconnectedEvents
        (regRun regInit
          [.opened "peerAAAAX" "a1", .opened "peerAAAAX" "a2",
           .closed "peerAAAAX", .closed "peerAAAAX",
           .opened "peerBBBBY" "b1"]).events "peerAAAAX" =
      sessionsEnded regInit.conns
        [.opened "peerAAAAX" "a1", .opened "peerAAAAX" "a2",
         .closed "peerAAAAX", .closed "peerAAAAX",
         .opened "peerBBBBY" "b1"] "peerAAAAX") ∧
    (∀ s : RegState, ∀ a pe, lookupA s.peers "peerAAAAX" = some pe →
      (notifieeConnected s "peerAAAAX" a).events = s.events ∧
      lookupA (notifieeConnected s "peerAAAAX" a).peers "peerAAAAX" =
        some { pe with addresses := pe.addresses ++ [a] }) ∧
    (∀ s : RegState, ∀ a, lookupA s.peers "peerAAAAX" = none →
      (notifieeConnected s "peerAAAAX" a).events =
          s.events ++ [.peerConnected "peerAAAAX" ("peerAAAAX".take 8)] ∧
      lookupA (notifieeConnected s "peerAAAAX" a).peers "peerAAAAX" =
        some { id := "peerAAAAX", nickname := "peerAAAAX".take 8,
               addresses := [a] }) ∧
    (∀ s : RegState, 0 < getCount (decCount s.conns "peerAAAAX") "peerAAAAX" →
      (notifieeDisconnected s "peerAAAAX").events = s.events ∧
      (notifieeDisconnected s "peerAAAAX").peers = s.peers) ∧
    (∀ s : RegState, getCount (decCount s.conns "peerAAAAX") "peerAAAAX" = 0 →
      (notifieeDisconnected s "peerAAAAX").events =
          s.events ++ [.peerDisconnected "peerAAAAX"] ∧
      lookupA (notifieeDisconnected s "peerAAAAX").peers "peerAAAAX" =
        none) :=
  c3_registry
    [.opened "peerAAAAX" "a1", .opened "peerAAAAX" "a2",
     .closed "peerAAAAX", .closed "peerAAAAX", .opened "peerBBBBY" "b1"]
    "peerAAAAX" (by decide)

/-- Claim C4 as stated is false: an inbound `cancel` message overwrites the
terminal status `completed` with `cancelled`. -/
theorem c4_counterexample :
    terminalStatus sampleCompleted.status ∧
    (handleTransferCancelOp sampleCompleted).status ≠
      sampleCompleted.status := by
  exact ⟨Or.inl rfl, by decide⟩

/-- Claim C4 (amended): only the peer-disconnection path is guarded — it
never touches a transfer in a terminal status — while `CancelTransfer`, an
inbound `cancel` and an inbound `complete` overwrite the status
unconditionally, including a terminal one. -/
theorem c4_amended (pid : String) (t : Transfer)
    (h : terminalStatus t.status) :
    peerDisconnectedStep pid t = t ∧
    (cancelTransferOp t).status = .cancelled ∧
    (handleTransferCancelOp t).status = .cancelled ∧
    (handleTransferCompleteOp t).status = .completed := by
  refine ⟨?_, rfl, rfl, rfl⟩
  unfold peerDisconnectedStep
  rw [if_neg]
  rintro ⟨-, hact⟩
  rcases h with h | h | h <;> rcases hact with hact | hact <;>
    rw [h] at hact <;> exact TransferStatus.noConfusion hact

theorem c4_witness :
    peerDisconnectedStep "peerA" sampleCompleted = sampleCompleted ∧
    (cancelTransferOp sampleCompleted).status = .cancelled ∧
    (handleTransferCancelOp sampleCompleted).status = .cancelled ∧
    (handleTransferCompleteOp sampleCompleted).status = .completed :=
  c4_amended "peerA" sampleCompleted (Or.inl rfl)

/-- Claim C5 as stated is false: a receive transfer with declared size 1 that
is sent a 2-byte chunk ends with bytes-transferred 2 > size 1 and progress
200 > 100; nothing is clamped. -/
theorem c5_counterexample :
    (handleTransferData sampleReceive [0, 0] false).size <
        (handleTransferData sampleReceive [0, 0] false).transferred ∧
    100 < (handleTransferData sampleReceive [0, 0] false).progress := by
  constructor
  · decide
  · show (100 : ℚ) < (handleTransferData sampleReceive [0, 0] false).progress
    simp only [handleTransferData, sampleReceive]
    norm_num

/-- Claim C5 (amended): on the send side bytes-transferred (the partial sums
of the emitted payload sizes) never exceeds the file size; on the receive
side each chunk is added to bytes-transferred with no bound check, and
whenever the running total exceeds a positive declared size the progress
value `transferred * 100 / size` exceeds 100 — neither quantity is
clamped. -/
theorem c5_amended (content : List Nat) (k : Nat) (t : Transfer)
    (chunk : List Nat) (hopen : t.fileOpen = true) (hpos : 0 < t.size)
    (hover : t.size < t.transferred + (chunk.length : Int)) :
    ((((sendFileChunks content).take k).map
        (fun ch => ch.payload.length)).sum ≤ content.length) ∧
    (handleTransferData t chunk false).transferred =
        t.transferred + (chunk.length : Int) ∧
    100 < (handleTransferData t chunk false).progress := by
  refine ⟨sendFileChunks_prefix_le content k, ?_, ?_⟩
  · unfold handleTransferData
    simp [hopen]
  · unfold handleTransferData
    simp only [hopen, Bool.true_eq_false, if_false, if_neg Bool.false_ne_true]
    have hs : (0 : ℚ) < (t.size : ℚ) := by exact_mod_cast hpos
    rw [lt_div_iff₀ hs]
    have hx : (t.size : ℚ) < ((t.transferred + (chunk.length : Int) : Int) : ℚ) := by
      exact_mod_cast hover
    nlinarith

theorem c5_witness :
    ((((sendFileChunks [7]).take 1).map
        (fun ch => ch.payload.length)).sum ≤ [7].length) ∧
    (handleTransferData sampleReceive [0, 0] false).transferred =
        sampleReceive.transferred + (([0, 0] : List Nat).length : Int) ∧
    100 < (handleTransferData sampleReceive [0, 0] false).progress :=
  c5_amended [7] 1 sampleReceive [0, 0] rfl (by decide) (by decide)

/-- Claim C6 as stated is false: a transfer `data` message whose envelope
parses but whose `transfer_id` field is missing (or a chat text message whose
`sender_id` is a number) is not dropped — the unchecked type assertion
panics, aborting the handler. -/
theorem c6_counterexample :
    handleTransferDataMsg (fun _ => some []) [] [] =
      .error .typeAssertion ∧
    handleTextMessageMsg (fun s => some s) (fun _ => "") []
        [("sender_id", .jnum 3)] =
      .error .typeAssertion := by
  exact ⟨rfl, rfl⟩

/-- Claim C6 (amended): a message whose JSON envelope fails to unmarshal is
dropped and processing continues, but a parsed envelope whose `data` fields
are missing or wrongly typed makes the unchecked Go type assertion panic
(here: any non-string `transfer_id` in a transfer `data` message, any
non-string `sender_id` in a chat text message), escaping the handler instead
of being dropped. -/
theorem c6_amended (b64 : String → Option (List Nat))
    (ts : List (String × Transfer)) (data : List (String × JValue))
    (decodePeer : String → Option String) (lookupNick : String → String)
    (st : List ChatMsgRec) (cdata : List (String × JValue))
    (htid : ∀ s, lookupA data "transfer_id" ≠ some (.jstr s))
    (hsid : ∀ s, lookupA cdata "sender_id" ≠ some (.jstr s)) :
    onTransferDataEnvelope b64 ts none = .ok ts ∧
    handleTransferDataMsg b64 ts data = .error .typeAssertion ∧
    handleTextMessageMsg decodePeer lookupNick st cdata =
      .error .typeAssertion := by
  refine ⟨rfl, ?_, ?_⟩
  · unfold handleTransferDataMsg
    rw [asGoString_eq_error htid]
    rfl
  · unfold handleTextMessageMsg
    rw [asGoString_eq_error hsid]
    rfl

theorem c6_witness :
    onTransferDataEnvelope (fun _ => some []) [] none = .ok [] ∧
    handleTransferDataMsg (fun _ => some []) []
        [("transfer_id", .jnum 3)] = .error .typeAssertion ∧
    handleTextMessageMsg (fun s => some s) (fun _ => "") [] [] =
      .error .typeAssertion :=
  c6_amended (fun _ => some []) [] [("transfer_id", .jnum 3)]
    (fun s => some s) (fun _ => "") [] []
    (by intro s; simp [lookupA]) (by intro s; simp [lookupA])

/-- Claim C7 as stated is false: `SetNickname` stores the empty string and
reports no error (the claim requires rejection with the stored nickname left
unchanged), and it stores a padded nickname verbatim rather than trimmed. -/
theorem c7_counterexample :
    (setNickname sampleManager "").2 = none ∧
    (setNickname sampleManager "").1.identity.nickname = "" ∧
    sampleManager.identity.nickname ≠ "" ∧
    (setNickname sampleManager " a ").1.identity.nickname = " a " ∧
    (" a " : String) ≠ "a" := by
  exact ⟨rfl, rfl, by decide, rfl, by decide⟩

/-- Claim C7 (amended): `SetNickname` performs no validation at all — the
argument is stored verbatim (no trimming), the empty string is accepted, no
error is returned, and the identity file is rewritten with the new value on
every call. -/
theorem c7_amended {PK PB : Type} (m : IdManager PK PB) (s : String) :
    (setNickname m s).2 = none ∧
    (setNickname m s).1.identity.nickname = s ∧
    (setNickname m s).1.persisted = (setNickname m s).1.identity := by
  exact ⟨rfl, rfl, rfl⟩

/-- Claim C8: `ImportIdentity` succeeds exactly when the bytes parse, the
contained private key parses, and the identifier re-derived from its public
key equals the stored `peer_id`; on failure the manager state is unchanged;
and importing the output of `ExportIdentity` on a consistent manager succeeds
and restores an equal manager state. -/
theorem c8_import {PK PB : Type}
    (configDecodeKey : String → Option (List Nat))
    (unmarshalPrivateKey : List Nat → Option PK)
    (getPublic : PK → PB)
    (idFromPublicKey : PB → Option String)
    (m : IdManager PK PB) (parsed : Option Identity)
    (hcons : ConsistentManager configDecodeKey unmarshalPrivateKey getPublic
      idFromPublicKey m) :
    ((importIdentity configDecodeKey unmarshalPrivateKey getPublic
        idFromPublicKey m parsed).2 = none ↔
      ∃ ident bs pk,
        parsed = some ident ∧
        configDecodeKey ident.privateKey = some bs ∧
        unmarshalPrivateKey bs = some pk ∧
        idFromPublicKey (getPublic pk) = some ident.peerID) ∧
    ((importIdentity configDecodeKey unmarshalPrivateKey getPublic
        idFromPublicKey m parsed).2 ≠ none →
      (importIdentity configDecodeKey unmarshalPrivateKey getPublic
        idFromPublicKey m parsed).1 = m) ∧
    importIdentity configDecodeKey unmarshalPrivateKey getPublic
        idFromPublicKey m (exportIdentity m) = (m, none) := by
  refine ⟨?_, ?_, ?_⟩
  · rcases parsed with _ | ident
    · simp [importIdentity]
    · rcases hdec : configDecodeKey ident.privateKey with _ | bs
      · simp only [importIdentity, hdec]
        constructor
        · intro habs; exact absurd habs (by simp)
        · rintro ⟨ident', bs', pk', hsome, hd', -, -⟩
          injection hsome with hi
          subst hi
          rw [hdec] at hd'
          exact Option.noConfusion hd'
      · rcases hum : unmarshalPrivateKey bs with _ | pk
        · simp only [importIdentity, hdec, hum]
          constructor
          · intro habs; exact absurd habs (by simp)
          · rintro ⟨ident', bs', pk', hsome, hd', hu', -⟩
            injection hsome with hi
            subst hi
            rw [hdec] at hd'
            injection hd' with hb
            subst hb
            rw [hum] at hu'
            exact Option.noConfusion hu'
        · rcases hid : idFromPublicKey (getPublic pk) with _ | pid
          · simp only [importIdentity, hdec, hum, hid]
            constructor
            · intro habs; exact absurd habs (by simp)
            · rintro ⟨ident', bs', pk', hsome, hd', hu', hid'⟩
              injection hsome with hi
              subst hi
              rw [hdec] at hd'
              injection hd' with hb
              subst hb
              rw [hum] at hu'
              injection hu' with hk
              subst hk
              rw [hid] at hid'
              exact Option.noConfusion hid'
          · by_cases hpid : pid = ident.peerID
            · subst hpid
              simp only [importIdentity, hdec, hum, hid]
              rw [if_neg (by simp)]
              constructor
              · intro _
                exact ⟨ident, bs, pk, rfl, hdec, hum, hid⟩
              · intro _
                rfl
            · simp only [importIdentity, hdec, hum, hid, ne_eq, hpid,
                not_false_eq_true, if_pos]
              constructor
              · intro habs; exact absurd habs (by simp)
              · rintro ⟨ident', bs', pk', hsome, hd', hu', hid'⟩
                injection hsome with hi
                subst hi
                rw [hdec] at hd'
                injection hd' with hb
                subst hb
                rw [hum] at hu'
                injection hu' with hk
                subst hk
                rw [hid] at hid'
                injection hid' with hp
                exact (hpid hp).elim
  · rcases parsed with _ | ident
    · intro _; rfl
    · rcases hdec : configDecodeKey ident.privateKey with _ | bs
      · simp [importIdentity, hdec]
      · rcases hum : unmarshalPrivateKey bs with _ | pk
        · simp [importIdentity, hdec, hum]
        · rcases hid : idFromPublicKey (getPublic pk) with _ | pid
          · simp [importIdentity, hdec, hum, hid]
          · by_cases hpid : pid = ident.peerID
            · subst hpid
              simp [importIdentity, hdec, hum, hid]
            · simp [importIdentity, hdec, hum, hid, hpid]
  · obtain ⟨⟨bs, hdec, hum⟩, hpub, hid, hpid, hpers⟩ := hcons
    have hid' : idFromPublicKey (getPublic m.privateKey) =
        some m.identity.peerID := by rw [hpub]; exact hid
    simp only [importIdentity, exportIdentity, hdec, hum, hid']
    rw [if_neg (by simp)]
    rw [hpub, ← hpid]
    nth_rewrite 2 [← hpers]
    rfl

theorem c8_witness :
    ((importIdentity (fun s => some [s.length]) (fun bs => some (bs.headD 0))
        (fun n => n) (fun n => some ("peer" ++ toString n))
        sampleManager (some sampleIdentity)).2 = none ↔
      ∃ ident bs pk,
        (some sampleIdentity : Option Identity) = some ident ∧
        (fun s => some [String.length s]) ident.privateKey = some bs ∧
        (fun bs => some (List.headD bs 0)) bs = some pk ∧
        (fun n => some ("peer" ++ toString n)) ((fun n => n) pk) =
          some ident.peerID) ∧
    ((importIdentity (fun s => some [s.length]) (fun bs => some (bs.headD 0))
        (fun n => n) (fun n => some ("peer" ++ toString n))
        sampleManager (some sampleIdentity)).2 ≠ none →
      (importIdentity (fun s => some [s.length]) (fun bs => some (bs.headD 0))
        (fun n => n) (fun n => some ("peer" ++ toString n))
        sampleManager (some sampleIdentity)).1 = sampleManager) ∧
    importIdentity (fun s => some [s.length]) (fun bs => some (bs.headD 0))
        (fun n => n) (fun n => some ("peer" ++ toString n))
        sampleManager (exportIdentity sampleManager) =
      (sampleManager, none) :=
  c8_import (fun s => some [s.length]) (fun bs => some (bs.headD 0))
    (fun n => n) (fun n => some ("peer" ++ toString n))
    sampleManager (some sampleIdentity)
    ⟨⟨[3], rfl, rfl⟩, rfl, by decide, rfl, rfl⟩

/-- Claim C9: the direct-room identifier is symmetric in the two peer
identifiers — both endpoints derive the same room id. -/
theorem c9_direct_room (a b : String) :
    generateDirectRoomID a b = generateDirectRoomID b a := by
  unfold generateDirectRoomID
  rcases lt_trichotomy a b with h | h | h
  · rw [if_pos h, if_neg (not_lt_of_gt h)]
  · subst h
    rw [if_neg (lt_irrefl a)]
  · rw [if_neg (not_lt_of_gt h), if_pos h]

/-- Claim C10: each inbound chat / transfer substream is served by a single
read into a 4096-byte buffer, so `OnMessage` receives at most 4096 bytes and
any longer message arrives truncated; in particular the base64 payload of a
full `chunkSize`-byte data chunk is already 5464 characters, above the
buffer size, so such messages cannot arrive complete. -/
theorem c10_stream_truncation :
    (∀ msg : List Nat, (handleStreamRead msg).length ≤ streamBufSize) ∧
    (∀ msg : List Nat, streamBufSize < msg.length →
      handleStreamRead msg ≠ msg) ∧
    base64EncodedLen chunkSize = 5464 ∧
    streamBufSize < base64EncodedLen chunkSize := by
  refine ⟨handleStreamRead_length_le,
    fun msg h => handleStreamRead_truncates h, by decide, by decide⟩

theorem c10_witness :
    (handleStreamRead (List.replicate (streamBufSize + 1) 0)).length ≤
        streamBufSize ∧
    handleStreamRead (List.replicate (streamBufSize + 1) 0) ≠
      List.replicate (streamBufSize + 1) 0 :=
  ⟨c10_stream_truncation.1 _,
    c10_stream_truncation.2.1 _ (by simp)⟩
